import Mathlib

/-!
# Verification of the k8s-resources quantity library

Shallow embedding of the TypeScript classes `CPUResource` and `MemoryResource`
from this repository.  The repository contains two copies of each class:

* `src/index.ts` — the legacy copy (its constructor has no leading-minus
  pre-check); embedded below under the namespaces `CPUResource` and
  `MemoryResource`.
* `src/resources/CPUResource.ts` and `src/resources/MemoryResource.ts` — the
  current copies, whose constructors reject a leading `'-'` before the format
  regex and are otherwise character-identical to the legacy copies; embedded
  under `ResourcesCPU` and `ResourcesMem`.

Modelling conventions:

* A JavaScript number is modelled by `JsNum`: `NaN`, `±Infinity`, or an exact
  rational.  Floating-point rounding is idealised away: arithmetic on finite
  values is exact rational arithmetic.
* Rendering a number with a template literal is modelled by the exact decimal
  expansion (`natStr` / `divToString`), which agrees with JavaScript's
  number-to-string conversion on every value appearing in this development.
* A thrown `Error` is identified by its kind (`QErr`), following the error
  taxonomy of the specification; the mapping from message strings to kinds is
  noted at each throw site.
* Successful construction yields the canonical value (whole millicores or
  whole bytes) as a `Nat`; every operation returns `Except QErr Nat`.
-/

/-- Error kinds thrown by the library (spec section 7 taxonomy). -/
inductive QErr where
  | InvalidFormat
  | InvalidUnit
  | Negative
  | NotFinite
  | FractionalUnit
  | InvalidFactor
deriving DecidableEq

/-- A JavaScript number: NaN, an infinity, or a finite value (modelled as an
exact rational). -/
inductive JsNum where
  | nan
  | posInf
  | negInf
  | fin (q : ℚ)
deriving DecidableEq

/-- JavaScript `Number.isFinite`. -/
def JsNum.isFinite : JsNum → Bool
  | .fin _ => true
  | _ => false

/-- JavaScript comparison `x < 0`: false for NaN, true for `-Infinity`. -/
def JsNum.isNeg : JsNum → Bool
  | .nan => false
  | .posInf => false
  | .negInf => true
  | .fin q => decide (q < 0)

/-- Character class `\d` of the constructors' regex. -/
def jsIsDigit (c : Char) : Bool := 48 ≤ c.toNat && c.toNat ≤ 57

/-- Character class `[a-zA-Z]` of the constructors' regex. -/
def jsIsAlpha (c : Char) : Bool :=
  (65 ≤ c.toNat && c.toNat ≤ 90) || (97 ≤ c.toNat && c.toNat ≤ 122)

/-- Split a character list into its maximal leading run of digits and the
rest (the `\d+` parts of the regex). -/
def takeDigits : List Char → List Char × List Char
  | [] => ([], [])
  | c :: cs =>
    if jsIsDigit c then
      let p := takeDigits cs
      (c :: p.1, p.2)
    else ([], c :: cs)

/-- The anchored regex `^(\d+(\.\d+)?)([a-zA-Z]*)$` used by both string
constructors, returning the numeric capture group and the unit capture group
on a match.  Greedy matching of `\d+` and of the optional fraction group is
forced here: letters can never consume a digit or a dot, so the regex match
is unique when it exists. -/
def matchQuantity (cs : List Char) : Option (List Char × List Char) :=
  let ip := (takeDigits cs).1
  let r1 := (takeDigits cs).2
  if ip = [] then none
  else if r1.head? = some '.' then
    let fp := (takeDigits r1.tail).1
    let r3 := (takeDigits r1.tail).2
    if fp = [] then none
    else if r3.all jsIsAlpha then some (ip ++ '.' :: fp, r3) else none
  else if r1.all jsIsAlpha then some (ip, r1) else none

/-- Numeric value of a digit character. -/
def digitVal (c : Char) : Nat := c.toNat - 48

/-- Value of a digit string, most significant digit first. -/
def digitsToNat (cs : List Char) : Nat := cs.foldl (fun a c => a * 10 + digitVal c) 0

/-- JavaScript `parseFloat` on the numeric capture group (digits optionally
followed by `.` and digits); exact by the idealisation above. -/
def parseDecimal (cs : List Char) : ℚ :=
  let ip := (takeDigits cs).1
  let r := (takeDigits cs).2
  if r.head? = some '.' then
    (digitsToNat ip : ℚ) +
      (digitsToNat (takeDigits r.tail).1 : ℚ) / 10 ^ (takeDigits r.tail).1.length
  else (digitsToNat ip : ℚ)

/-- Little-endian decimal digits of `n`, with explicit fuel so that the
definition is structurally recursive. -/
def natDigitsAux : Nat → Nat → List Char
  | 0, _ => []
  | f + 1, n => if n = 0 then [] else Char.ofNat (48 + n % 10) :: natDigitsAux f (n / 10)

/-- Decimal digit characters of `n`, most significant digit first; models the
JavaScript rendering of a whole number in a template literal. -/
def numToChars (n : Nat) : List Char :=
  if n = 0 then ['0'] else (natDigitsAux n n).reverse

/-- Decimal string of a whole number. -/
def natStr (n : Nat) : String := String.mk (numToChars n)

/-- Left-pad a digit list with zeros to width `k`. -/
def padZeros (k : Nat) (cs : List Char) : List Char :=
  List.replicate (k - cs.length) '0' ++ cs

/-- Drop trailing zero characters. -/
def stripTrailZeros (cs : List Char) : List Char :=
  (cs.reverse.dropWhile (fun c => c == '0')).reverse

/-- Exact decimal rendering of the quotient `v / t`; models the JavaScript
rendering `` `${value / unitValue}` `` in the formatters.  Exact whenever the
decimal expansion of `v / t` terminates within 40 fractional digits, which
holds for every divisor used by the library (1000 and powers of 1024 up to
`1024 ^ 3`). -/
def divToString (v t : Nat) : String :=
  let scaled := v * 10 ^ 40 / t
  let ip := scaled / 10 ^ 40
  let fp := scaled % 10 ^ 40
  if fp = 0 then natStr ip
  else natStr ip ++ "." ++ String.mk (stripTrailZeros (padZeros 40 (numToChars fp)))

/-- Unit table of `CPUResource`: `{ "m": 1, "": 1000 }`, combined with the
constructor's unit check (`if (unit && !multiplier) throw InvalidUnit`) and
the fallback `multiplier || 1`. -/
def CPUResource.UNITS (unit : List Char) : Option ℚ :=
  if unit = ['m'] then some 1
  else if unit = [] then some 1000
  else none

/-- The private static `validateMillicores` of `src/index.ts` (identical in
`src/resources/CPUResource.ts`).  The three checks in source order:
`millicores < 0` → "CPU resources cannot be negative" (`Negative`);
`!Number.isFinite(millicores)` → "CPU resources must be finite numbers"
(`NotFinite`); `Math.floor(millicores) !== millicores` → "CPU resources must
be whole numbers of millicores" (`FractionalUnit`).  On success the validated
whole number is returned. -/
def CPUResource.validateMillicores (m : JsNum) : Except QErr Nat :=
  if m.isNeg then .error .Negative
  else
    match m with
    | .fin q => if (⌊q⌋ : ℚ) = q then .ok q.num.toNat else .error .FractionalUnit
    | _ => .error .NotFinite

/-- The string constructor of `CPUResource` in `src/index.ts`: regex match
("Invalid CPU resource format…" → `InvalidFormat`), unit lookup ("Invalid CPU
unit…" → `InvalidUnit`), `parseFloat(num) * (multiplier || 1)`, then
validation. -/
def CPUResource.parse (s : String) : Except QErr Nat :=
  match matchQuantity s.data with
  | none => .error .InvalidFormat
  | some (num, unit) =>
    match CPUResource.UNITS unit with
    | none => .error .InvalidUnit
    | some mult => CPUResource.validateMillicores (.fin (parseDecimal num * mult))

/-- The private `format` of `CPUResource`:
`value >= 1000 ? `${value / 1000}` : `${value}m``. -/
def CPUResource.format (v : Nat) : String :=
  if 1000 ≤ v then divToString v 1000 else natStr v ++ "m"

/-- `CPUResource.zero()`: `new CPUResource('0m')`. -/
def CPUResource.zero : Except QErr Nat := CPUResource.parse "0m"

/-- `CPUResource.fromMillicores`: validate the argument, then construct via
`` new CPUResource(`${millicores}m`) `` (the validated argument is a whole
number, rendered by its decimal digits). -/
def CPUResource.fromMillicores (m : JsNum) : Except QErr Nat :=
  match CPUResource.validateMillicores m with
  | .error e => .error e
  | .ok n => CPUResource.parse (natStr n ++ "m")

/-- `CPUResource.plus`: `result.value = this.value + other.value` followed by
validation of the sum. -/
def CPUResource.plus (a b : Nat) : Except QErr Nat :=
  CPUResource.validateMillicores (.fin ((a : ℚ) + (b : ℚ)))

/-- `CPUResource.minus`: `result.value = this.value - other.value` followed by
validation of the difference. -/
def CPUResource.minus (a b : Nat) : Except QErr Nat :=
  CPUResource.validateMillicores (.fin ((a : ℚ) - (b : ℚ)))

/-- `CPUResource.times`: `Number.isFinite(factor)` is checked first
("Multiplication factor must be a finite number" → `InvalidFactor`), then
`result.value = Math.floor(this.value * factor)` is validated. -/
def CPUResource.times (a : Nat) (factor : JsNum) : Except QErr Nat :=
  match factor with
  | .fin f => CPUResource.validateMillicores (.fin (⌊(a : ℚ) * f⌋ : ℚ))
  | _ => .error .InvalidFactor

/-- The string constructor of `src/resources/CPUResource.ts`: it first runs
`if (resource.startsWith('-')) throw "CPU resources cannot be negative"`
(`Negative`), and is otherwise character-identical to the `src/index.ts`
constructor embedded as `CPUResource.parse`. -/
def ResourcesCPU.parse (s : String) : Except QErr Nat :=
  match s.data with
  | '-' :: _ => .error .Negative
  | _ => CPUResource.parse s

/-- Unit table of `MemoryResource`:
`{ "Ki": 1024, "Mi": 1024 ** 2, "Gi": 1024 ** 3, "Ti": 1024 ** 4 }`, combined
with the constructor's check `if (unit && !multiplier && unit !== 'B') throw
InvalidUnit` and the fallback `multiplier || 1` (so `""` and `"B"` both mean
bytes). -/
def MemoryResource.UNITS (unit : List Char) : Option ℚ :=
  if unit = ['K', 'i'] then some 1024
  else if unit = ['M', 'i'] then some (1024 ^ 2)
  else if unit = ['G', 'i'] then some (1024 ^ 3)
  else if unit = ['T', 'i'] then some (1024 ^ 4)
  else if unit = [] ∨ unit = ['B'] then some 1
  else none

/-- The private static `validateBytes` of `src/index.ts` (identical in
`src/resources/MemoryResource.ts`): `bytes < 0` → `Negative`,
`!Number.isFinite(bytes)` → `NotFinite`, `Math.floor(bytes) !== bytes` →
`FractionalUnit`, in that source order. -/
def MemoryResource.validateBytes (m : JsNum) : Except QErr Nat :=
  if m.isNeg then .error .Negative
  else
    match m with
    | .fin q => if (⌊q⌋ : ℚ) = q then .ok q.num.toNat else .error .FractionalUnit
    | _ => .error .NotFinite

/-- The string constructor of `MemoryResource` in `src/index.ts`: regex match
("Invalid memory resource format…" → `InvalidFormat`), unit check ("Invalid
memory unit…" → `InvalidUnit`), `parseFloat(num) * (multiplier || 1)`, then
validation. -/
def MemoryResource.parse (s : String) : Except QErr Nat :=
  match matchQuantity s.data with
  | none => .error .InvalidFormat
  | some (num, unit) =>
    match MemoryResource.UNITS unit with
    | none => .error .InvalidUnit
    | some mult => MemoryResource.validateBytes (.fin (parseDecimal num * mult))

/-- Ordered unit walk of the private `format` of `MemoryResource`:
`for (const unit of ["Gi", "Mi", "Ki"])` with thresholds from its unit
table. -/
def MemoryResource.formatUnits : List (String × Nat) :=
  [("Gi", 1024 ^ 3), ("Mi", 1024 ^ 2), ("Ki", 1024)]

/-- The private `format` of `MemoryResource`: the first unit whose value the
byte count meets or exceeds renders `` `${value / unitValue}${unit}` ``;
otherwise `` `${value}B` ``. -/
def MemoryResource.format (v : Nat) : String :=
  match MemoryResource.formatUnits.find? (fun u => decide (u.2 ≤ v)) with
  | some u => divToString v u.2 ++ u.1
  | none => natStr v ++ "B"

/-- `MemoryResource.zero()`: `new MemoryResource('0B')`. -/
def MemoryResource.zero : Except QErr Nat := MemoryResource.parse "0B"

/-- `MemoryResource.fromBytes`: validate the argument, then construct via
`` new MemoryResource(`${bytes}B`) ``. -/
def MemoryResource.fromBytes (m : JsNum) : Except QErr Nat :=
  match MemoryResource.validateBytes m with
  | .error e => .error e
  | .ok n => MemoryResource.parse (natStr n ++ "B")

/-- `MemoryResource.plus`: sum of byte counts, then validation. -/
def MemoryResource.plus (a b : Nat) : Except QErr Nat :=
  MemoryResource.validateBytes (.fin ((a : ℚ) + (b : ℚ)))

/-- `MemoryResource.minus`: difference of byte counts, then validation. -/
def MemoryResource.minus (a b : Nat) : Except QErr Nat :=
  MemoryResource.validateBytes (.fin ((a : ℚ) - (b : ℚ)))

/-- `MemoryResource.times`: finiteness check on the factor (`InvalidFactor`),
then `Math.floor(this.value * factor)` is validated. -/
def MemoryResource.times (a : Nat) (factor : JsNum) : Except QErr Nat :=
  match factor with
  | .fin f => MemoryResource.validateBytes (.fin (⌊(a : ℚ) * f⌋ : ℚ))
  | _ => .error .InvalidFactor

/-- The string constructor of `src/resources/MemoryResource.ts`: it first runs
`if (resource.startsWith('-')) throw "Memory resources cannot be negative"`
(`Negative`), and is otherwise character-identical to the `src/index.ts`
constructor embedded as `MemoryResource.parse`. -/
def ResourcesMem.parse (s : String) : Except QErr Nat :=
  match s.data with
  | '-' :: _ => .error .Negative
  | _ => MemoryResource.parse s

/-! ## Helper lemmas about digits and rendering -/

theorem natDigitsAux_zero (f : Nat) : natDigitsAux f 0 = [] := by
  cases f <;> simp [natDigitsAux]

theorem toNat_ofNat_digit (d : Nat) (h : d < 10) : (Char.ofNat (48 + d)).toNat = 48 + d := by
  interval_cases d <;> decide

theorem jsIsDigit_ofNat_digit (d : Nat) (h : d < 10) : jsIsDigit (Char.ofNat (48 + d)) = true := by
  interval_cases d <;> decide

theorem natDigitsAux_all_digit (f n : Nat) : (natDigitsAux f n).all jsIsDigit = true := by
  induction f generalizing n with
  | zero => simp [natDigitsAux]
  | succ f ih =>
    by_cases h : n = 0
    · simp [natDigitsAux, h]
    · simp only [natDigitsAux, if_neg h, List.all_cons, Bool.and_eq_true]
      exact ⟨jsIsDigit_ofNat_digit _ (Nat.mod_lt _ (by norm_num)), ih _⟩

theorem numToChars_all_digit (n : Nat) : (numToChars n).all jsIsDigit = true := by
  by_cases h : n = 0
  · simp [numToChars, h]; decide
  · simp only [numToChars, if_neg h, List.all_reverse]
    exact natDigitsAux_all_digit n n

theorem numToChars_ne_nil (n : Nat) : numToChars n ≠ [] := by
  by_cases h : n = 0
  · simp [numToChars, h]
  · obtain ⟨f, rfl⟩ : ∃ f, n = f + 1 := ⟨n - 1, by omega⟩
    simp [numToChars, natDigitsAux, h]

theorem digitsToNat_append_singleton (xs : List Char) (c : Char) :
    digitsToNat (xs ++ [c]) = 10 * digitsToNat xs + digitVal c := by
  simp [digitsToNat, List.foldl_append]
  ring

theorem digitsToNat_natDigitsAux (f : Nat) :
    ∀ n, 0 < n → n ≤ f → digitsToNat ((natDigitsAux f n).reverse) = n := by
  induction f with
  | zero => intro n h1 h2; omega
  | succ f ih =>
    intro n h1 h2
    have hn : n ≠ 0 := by omega
    simp only [natDigitsAux, if_neg hn, List.reverse_cons, digitsToNat_append_singleton]
    have hval : digitVal (Char.ofNat (48 + n % 10)) = n % 10 := by
      simp [digitVal, toNat_ofNat_digit _ (Nat.mod_lt n (by norm_num))]
    by_cases hq : n / 10 = 0
    · have : n < 10 := by omega
      simp [hq, natDigitsAux_zero, digitsToNat, hval]
      omega
    · have hlt : n / 10 ≤ f := by
        have := Nat.div_lt_self h1 (show 1 < 10 by norm_num)
        omega
      rw [ih (n / 10) (by omega) hlt, hval]
      omega

theorem digitsToNat_numToChars (n : Nat) : digitsToNat (numToChars n) = n := by
  by_cases h : n = 0
  · simp [numToChars, h]; decide
  · simp only [numToChars, if_neg h]
    exact digitsToNat_natDigitsAux n n (by omega) le_rfl

theorem takeDigits_spec (cs : List Char) :
    (takeDigits cs).1 ++ (takeDigits cs).2 = cs ∧ (takeDigits cs).1.all jsIsDigit = true := by
  induction cs with
  | nil => simp [takeDigits]
  | cons c cs ih =>
    by_cases h : jsIsDigit c
    · simp [takeDigits, h, ih.1, ih.2]
    · simp [takeDigits, h]

theorem takeDigits_append (ds rest : List Char) (hd : ds.all jsIsDigit = true)
    (hr : ∀ c, rest.head? = some c → jsIsDigit c = false) :
    takeDigits (ds ++ rest) = (ds, rest) := by
  induction ds with
  | nil =>
    cases rest with
    | nil => rfl
    | cons c t => simp [takeDigits, hr c rfl]
  | cons d ds ih =>
    simp only [List.all_cons, Bool.and_eq_true] at hd
    simp [takeDigits, hd.1, ih hd.2]

theorem jsIsAlpha_not_digit (c : Char) (h : jsIsAlpha c = true) : jsIsDigit c = false := by
  simp [jsIsAlpha] at h
  simp [jsIsDigit]
  omega

theorem jsIsAlpha_ne_dot (c : Char) (h : jsIsAlpha c = true) : c ≠ '.' := by
  rintro rfl
  simp [jsIsAlpha] at h

/-! ## Validator lemmas -/

theorem validateM_fin (q : ℚ) :
    CPUResource.validateMillicores (.fin q) =
      if q < 0 then .error .Negative
      else if (⌊q⌋ : ℚ) = q then .ok q.num.toNat
      else .error .FractionalUnit := by
  simp [CPUResource.validateMillicores, JsNum.isNeg]

theorem validateB_fin (q : ℚ) :
    MemoryResource.validateBytes (.fin q) =
      if q < 0 then .error .Negative
      else if (⌊q⌋ : ℚ) = q then .ok q.num.toNat
      else .error .FractionalUnit := by
  simp [MemoryResource.validateBytes, JsNum.isNeg]

theorem validateM_natCast (n : Nat) :
    CPUResource.validateMillicores (.fin (n : ℚ)) = .ok n := by
  rw [validateM_fin]
  rw [if_neg (not_lt.mpr (Nat.cast_nonneg n)), if_pos (by rw [Int.floor_natCast]; exact_mod_cast rfl)]
  simp

theorem validateB_natCast (n : Nat) :
    MemoryResource.validateBytes (.fin (n : ℚ)) = .ok n := by
  rw [validateB_fin]
  rw [if_neg (not_lt.mpr (Nat.cast_nonneg n)), if_pos (by rw [Int.floor_natCast]; exact_mod_cast rfl)]
  simp

/-! ## Parse lemmas for canonically rendered inputs -/

theorem parseDecimal_digits (ds : List Char) (hd : ds.all jsIsDigit = true) :
    parseDecimal ds = (digitsToNat ds : ℚ) := by
  have h := takeDigits_append ds [] hd (by simp)
  simp only [List.append_nil] at h
  simp [parseDecimal, h]

theorem matchQuantity_digits_unit (ds u : List Char) (hne : ds ≠ [])
    (hd : ds.all jsIsDigit = true) (hu : u.all jsIsAlpha = true) :
    matchQuantity (ds ++ u) = some (ds, u) := by
  have hhead : ∀ c, u.head? = some c → jsIsDigit c = false := by
    intro c hc
    cases u with
    | nil => simp at hc
    | cons a t =>
      simp only [List.head?_cons, Option.some.injEq] at hc
      subst hc
      simp only [List.all_cons, Bool.and_eq_true] at hu
      exact jsIsAlpha_not_digit _ hu.1
  have ht := takeDigits_append ds u hd hhead
  have hdot : ¬ u.head? = some '.' := by
    intro hc
    cases u with
    | nil => simp at hc
    | cons a t =>
      simp only [List.head?_cons, Option.some.injEq] at hc
      subst hc
      simp only [List.all_cons, Bool.and_eq_true] at hu
      exact jsIsAlpha_ne_dot _ hu.1 rfl
  simp [matchQuantity, ht, hne, hdot, hu]

theorem parseCPU_digits_unit (v : Nat) (u : List Char) (k : Nat)
    (hu : u.all jsIsAlpha = true) (hU : CPUResource.UNITS u = some (k : ℚ)) :
    CPUResource.parse (String.mk (numToChars v ++ u)) = .ok (v * k) := by
  have hm := matchQuantity_digits_unit (numToChars v) u (numToChars_ne_nil v)
    (numToChars_all_digit v) hu
  have hp := parseDecimal_digits (numToChars v) (numToChars_all_digit v)
  rw [digitsToNat_numToChars] at hp
  show CPUResource.parse ⟨numToChars v ++ u⟩ = .ok (v * k)
  simp only [CPUResource.parse, hm, hU, hp]
  rw [show ((v : ℚ) * (k : ℚ)) = ((v * k : Nat) : ℚ) by push_cast; ring]
  exact validateM_natCast (v * k)

theorem parseMem_digits_unit (v : Nat) (u : List Char) (k : Nat)
    (hu : u.all jsIsAlpha = true) (hU : MemoryResource.UNITS u = some (k : ℚ)) :
    MemoryResource.parse (String.mk (numToChars v ++ u)) = .ok (v * k) := by
  have hm := matchQuantity_digits_unit (numToChars v) u (numToChars_ne_nil v)
    (numToChars_all_digit v) hu
  have hp := parseDecimal_digits (numToChars v) (numToChars_all_digit v)
  rw [digitsToNat_numToChars] at hp
  show MemoryResource.parse ⟨numToChars v ++ u⟩ = .ok (v * k)
  simp only [MemoryResource.parse, hm, hU, hp]
  rw [show ((v : ℚ) * (k : ℚ)) = ((v * k : Nat) : ℚ) by push_cast; ring]
  exact validateB_natCast (v * k)

theorem natStr_append_m (v : Nat) : natStr v ++ "m" = String.mk (numToChars v ++ ['m']) := rfl

theorem natStr_append_B (v : Nat) : natStr v ++ "B" = String.mk (numToChars v ++ ['B']) := rfl

theorem parseCPU_natStr_m (v : Nat) : CPUResource.parse (natStr v ++ "m") = .ok v := by
  rw [natStr_append_m]
  have := parseCPU_digits_unit v ['m'] 1 (by decide) (by simp [CPUResource.UNITS])
  simpa using this

theorem parseMem_natStr_B (v : Nat) : MemoryResource.parse (natStr v ++ "B") = .ok v := by
  rw [natStr_append_B]
  have := parseMem_digits_unit v ['B'] 1 (by decide) (by simp [MemoryResource.UNITS])
  simpa using this

/-! ## Formatter lemmas -/

theorem formatMem_Gi (v : Nat) (h : 1024 ^ 3 ≤ v) :
    MemoryResource.format v = divToString v (1024 ^ 3) ++ "Gi" := by
  unfold MemoryResource.format MemoryResource.formatUnits
  rw [List.find?_cons_of_pos _ (by simpa using h)]

theorem formatMem_Mi (v : Nat) (h1 : 1024 ^ 2 ≤ v) (h2 : v < 1024 ^ 3) :
    MemoryResource.format v = divToString v (1024 ^ 2) ++ "Mi" := by
  unfold MemoryResource.format MemoryResource.formatUnits
  rw [List.find?_cons_of_neg _ (by simpa using Nat.not_le.mpr h2),
    List.find?_cons_of_pos _ (by simpa using h1)]

theorem formatMem_Ki (v : Nat) (h1 : 1024 ≤ v) (h2 : v < 1024 ^ 2) :
    MemoryResource.format v = divToString v 1024 ++ "Ki" := by
  unfold MemoryResource.format MemoryResource.formatUnits
  rw [List.find?_cons_of_neg _ (by simp; omega),
    List.find?_cons_of_neg _ (by simpa using Nat.not_le.mpr h2),
    List.find?_cons_of_pos _ (by simpa using h1)]

theorem formatMem_B (v : Nat) (h : v < 1024) :
    MemoryResource.format v = natStr v ++ "B" := by
  unfold MemoryResource.format MemoryResource.formatUnits
  rw [List.find?_cons_of_neg _ (by simp; omega),
    List.find?_cons_of_neg _ (by simp; omega),
    List.find?_cons_of_neg _ (by simpa using Nat.not_le.mpr h)]
  rfl

theorem formatCPU_ge (v : Nat) (h : 1000 ≤ v) :
    CPUResource.format v = divToString v 1000 := by
  unfold CPUResource.format
  rw [if_pos h]

theorem formatCPU_lt (v : Nat) (h : v < 1000) :
    CPUResource.format v = natStr v ++ "m" := by
  unfold CPUResource.format
  rw [if_neg (Nat.not_le.mpr h)]

/-! ## Arithmetic lemmas -/

theorem validateM_intCast (z : ℤ) (hz : 0 ≤ z) :
    CPUResource.validateMillicores (.fin (z : ℚ)) = .ok z.toNat := by
  rw [validateM_fin, if_neg (not_lt.mpr (by exact_mod_cast hz)),
    if_pos (by rw [Int.floor_intCast])]
  simp

theorem validateB_intCast (z : ℤ) (hz : 0 ≤ z) :
    MemoryResource.validateBytes (.fin (z : ℚ)) = .ok z.toNat := by
  rw [validateB_fin, if_neg (not_lt.mpr (by exact_mod_cast hz)),
    if_pos (by rw [Int.floor_intCast])]
  simp

theorem plusCPU_eq (a b : Nat) : CPUResource.plus a b = .ok (a + b) := by
  unfold CPUResource.plus
  rw [show ((a : ℚ) + (b : ℚ)) = ((a + b : Nat) : ℚ) by push_cast; ring]
  exact validateM_natCast (a + b)

theorem plusMem_eq (a b : Nat) : MemoryResource.plus a b = .ok (a + b) := by
  unfold MemoryResource.plus
  rw [show ((a : ℚ) + (b : ℚ)) = ((a + b : Nat) : ℚ) by push_cast; ring]
  exact validateB_natCast (a + b)

theorem minusCPU_le (a b : Nat) (h : b ≤ a) : CPUResource.minus a b = .ok (a - b) := by
  unfold CPUResource.minus
  rw [show ((a : ℚ) - (b : ℚ)) = ((a - b : Nat) : ℚ) by rw [Nat.cast_sub h]]
  exact validateM_natCast (a - b)

theorem minusMem_le (a b : Nat) (h : b ≤ a) : MemoryResource.minus a b = .ok (a - b) := by
  unfold MemoryResource.minus
  rw [show ((a : ℚ) - (b : ℚ)) = ((a - b : Nat) : ℚ) by rw [Nat.cast_sub h]]
  exact validateB_natCast (a - b)

theorem minusCPU_lt (a b : Nat) (h : a < b) : CPUResource.minus a b = .error .Negative := by
  unfold CPUResource.minus
  rw [validateM_fin, if_pos (by rw [sub_neg]; exact_mod_cast h)]

theorem minusMem_lt (a b : Nat) (h : a < b) : MemoryResource.minus a b = .error .Negative := by
  unfold MemoryResource.minus
  rw [validateB_fin, if_pos (by rw [sub_neg]; exact_mod_cast h)]

theorem timesCPU_nonneg (a : Nat) (f : ℚ) (h : 0 ≤ ⌊(a : ℚ) * f⌋) :
    CPUResource.times a (.fin f) = .ok (⌊(a : ℚ) * f⌋.toNat) := by
  unfold CPUResource.times
  exact validateM_intCast _ h

theorem timesMem_nonneg (a : Nat) (f : ℚ) (h : 0 ≤ ⌊(a : ℚ) * f⌋) :
    MemoryResource.times a (.fin f) = .ok (⌊(a : ℚ) * f⌋.toNat) := by
  unfold MemoryResource.times
  exact validateB_intCast _ h

theorem timesCPU_negFactor (a : Nat) (f : ℚ) (ha : 0 < a) (hf : f < 0) :
    CPUResource.times a (.fin f) = .error .Negative := by
  have hprod : (a : ℚ) * f < 0 := mul_neg_of_pos_of_neg (by exact_mod_cast ha) hf
  have h0 : CPUResource.times a (.fin f) =
      CPUResource.validateMillicores (.fin ((⌊(a : ℚ) * f⌋ : ℤ) : ℚ)) := rfl
  rw [h0, validateM_fin, if_pos (lt_of_le_of_lt (Int.floor_le _) hprod)]

theorem timesMem_negFactor (a : Nat) (f : ℚ) (ha : 0 < a) (hf : f < 0) :
    MemoryResource.times a (.fin f) = .error .Negative := by
  have hprod : (a : ℚ) * f < 0 := mul_neg_of_pos_of_neg (by exact_mod_cast ha) hf
  have h0 : MemoryResource.times a (.fin f) =
      MemoryResource.validateBytes (.fin ((⌊(a : ℚ) * f⌋ : ℤ) : ℚ)) := rfl
  rw [h0, validateB_fin, if_pos (lt_of_le_of_lt (Int.floor_le _) hprod)]

theorem parseCPU_invalid (s : String) (h : matchQuantity s.data = none) :
    CPUResource.parse s = .error .InvalidFormat := by
  simp [CPUResource.parse, h]

theorem parseMem_invalid (s : String) (h : matchQuantity s.data = none) :
    MemoryResource.parse s = .error .InvalidFormat := by
  simp [MemoryResource.parse, h]

/-! ## Claims -/

/-- C1, counterexample: on the `src/index.ts` string constructor of
`CPUResource` (cited by the claim), the input `"-100m"` fails with
`InvalidFormat`, not with `Negative`, because that copy of the constructor
has no leading-minus pre-check and the regex simply fails to match. -/
theorem claim_C1_cex :
    CPUResource.parse "-100m" = .error .InvalidFormat ∧
    QErr.InvalidFormat ≠ QErr.Negative :=
  ⟨parseCPU_invalid _ (by decide), by decide⟩

/-- C1 (amended): for every input string beginning with `'-'`, the string
constructors of `src/resources/CPUResource.ts` and
`src/resources/MemoryResource.ts` fail with `Negative` before the general
format check (so there `"-100m"` reports `Negative`); the duplicate legacy
constructors in `src/index.ts` have no such pre-check, and on them `"-100m"`
fails with `InvalidFormat` instead. -/
theorem claim_C1 :
    (∀ cs : List Char,
      ResourcesCPU.parse (String.mk ('-' :: cs)) = .error .Negative ∧
      ResourcesMem.parse (String.mk ('-' :: cs)) = .error .Negative) ∧
    ResourcesCPU.parse "-100m" = .error .Negative ∧
    ResourcesMem.parse "-100m" = .error .Negative ∧
    CPUResource.parse "-100m" = .error .InvalidFormat ∧
    MemoryResource.parse "-100m" = .error .InvalidFormat :=
  ⟨fun _ => ⟨rfl, rfl⟩, rfl, rfl,
    parseCPU_invalid _ (by decide), parseMem_invalid _ (by decide)⟩

/-- C2, counterexample: a negative-infinite argument is rejected by the
validators (and hence the factories) with `Negative`, not `NotFinite`,
because the source checks `value < 0` before `Number.isFinite(value)` and
`-Infinity < 0` holds in JavaScript. -/
theorem claim_C2_cex :
    CPUResource.fromMillicores JsNum.negInf = .error .Negative ∧
    MemoryResource.fromBytes JsNum.negInf = .error .Negative ∧
    CPUResource.validateMillicores JsNum.negInf = .error .Negative ∧
    MemoryResource.validateBytes JsNum.negInf = .error .Negative ∧
    QErr.Negative ≠ QErr.NotFinite :=
  ⟨rfl, rfl, rfl, rfl, by decide⟩

/-- C2 (amended): the validators run their checks in the order
non-negativity, then finiteness, then integrality, with the first failure
winning; consequently a finite negative value and also negative infinity
fail with `Negative`, while `NaN` (for which `x < 0` is false) and positive
infinity fail with `NotFinite`, and a non-negative fractional value fails
with `FractionalUnit`.  Factories validate their numeric argument before
constructing, so they fail with the same errors. -/
theorem claim_C2 : ∀ q : ℚ,
    (q < 0 → CPUResource.validateMillicores (.fin q) = .error .Negative ∧
      MemoryResource.validateBytes (.fin q) = .error .Negative) ∧
    (0 ≤ q → (⌊q⌋ : ℚ) ≠ q →
      CPUResource.validateMillicores (.fin q) = .error .FractionalUnit ∧
      MemoryResource.validateBytes (.fin q) = .error .FractionalUnit) ∧
    (q < 0 → CPUResource.fromMillicores (.fin q) = .error .Negative ∧
      MemoryResource.fromBytes (.fin q) = .error .Negative) ∧
    CPUResource.validateMillicores .nan = .error .NotFinite ∧
    CPUResource.validateMillicores .posInf = .error .NotFinite ∧
    CPUResource.validateMillicores .negInf = .error .Negative ∧
    MemoryResource.validateBytes .nan = .error .NotFinite ∧
    MemoryResource.validateBytes .posInf = .error .NotFinite ∧
    MemoryResource.validateBytes .negInf = .error .Negative ∧
    CPUResource.fromMillicores .nan = .error .NotFinite ∧
    CPUResource.fromMillicores .posInf = .error .NotFinite ∧
    MemoryResource.fromBytes .nan = .error .NotFinite ∧
    MemoryResource.fromBytes .posInf = .error .NotFinite := by
  intro q
  have hM : q < 0 → CPUResource.validateMillicores (.fin q) = .error .Negative :=
    fun h => by rw [validateM_fin, if_pos h]
  have hB : q < 0 → MemoryResource.validateBytes (.fin q) = .error .Negative :=
    fun h => by rw [validateB_fin, if_pos h]
  refine ⟨fun h => ⟨hM h, hB h⟩, ?_, ?_, rfl, rfl, rfl, rfl, rfl, rfl, rfl, rfl, rfl, rfl⟩
  · intro h1 h2
    exact ⟨by rw [validateM_fin, if_neg (not_lt.mpr h1), if_neg h2],
      by rw [validateB_fin, if_neg (not_lt.mpr h1), if_neg h2]⟩
  · intro h
    constructor
    · show (match CPUResource.validateMillicores (.fin q) with
        | .error e => .error e
        | .ok n => CPUResource.parse (natStr n ++ "m")) = Except.error QErr.Negative
      rw [hM h]
    · show (match MemoryResource.validateBytes (.fin q) with
        | .error e => .error e
        | .ok n => MemoryResource.parse (natStr n ++ "B")) = Except.error QErr.Negative
      rw [hB h]

/-- C2 witness: concrete instances discharging the hypotheses of the amended
claim: `-1/2` is rejected as `Negative` and `3/2` as `FractionalUnit`. -/
theorem claim_C2_witness :
    CPUResource.validateMillicores (.fin (-(1 / 2) : ℚ)) = .error .Negative ∧
    MemoryResource.validateBytes (.fin (3 / 2 : ℚ)) = .error .FractionalUnit := by
  constructor
  · exact ((claim_C2 (-(1 / 2))).1 (by norm_num)).1
  · refine ((claim_C2 (3 / 2)).2.1 (by norm_num) ?_).2
    rw [show ⌊(3 / 2 : ℚ)⌋ = 1 by norm_num [Int.floor_eq_iff]]
    norm_num

/-- C3: the memory text accessor walks the thresholds Gi, Mi, Ki in that
fixed order, uses the first one the byte value meets or exceeds, and renders
the exact quotient followed by the unit; below 1 Ki it renders `<value>B`;
the quotient may be a non-integer decimal (9999 bytes → "9.7646484375Ki"),
and Ti is never emitted (2 Ti of bytes → "2048Gi"). -/
theorem claim_C3 : ∀ v : Nat,
    (1024 ^ 3 ≤ v → MemoryResource.format v = divToString v (1024 ^ 3) ++ "Gi") ∧
    (1024 ^ 2 ≤ v → v < 1024 ^ 3 → MemoryResource.format v = divToString v (1024 ^ 2) ++ "Mi") ∧
    (1024 ≤ v → v < 1024 ^ 2 → MemoryResource.format v = divToString v 1024 ++ "Ki") ∧
    (v < 1024 → MemoryResource.format v = natStr v ++ "B") ∧
    MemoryResource.parse "9999B" = .ok 9999 ∧
    MemoryResource.format 9999 = "9.7646484375Ki" ∧
    MemoryResource.parse "2Ti" = .ok (2 * 1024 ^ 4) ∧
    MemoryResource.format (2 * 1024 ^ 4) = "2048Gi" := by
  intro v
  refine ⟨formatMem_Gi v, formatMem_Mi v, formatMem_Ki v, formatMem_B v, ?_, by decide, ?_, by decide⟩
  · rw [show ("9999B" : String) = natStr 9999 ++ "B" by decide]
    exact parseMem_natStr_B 9999
  · rw [show ("2Ti" : String) = String.mk (numToChars 2 ++ ['T', 'i']) by decide]
    refine parseMem_digits_unit 2 ['T', 'i'] (1024 ^ 4) (by decide) ?_
    rw [show MemoryResource.UNITS ['T', 'i'] = some ((1024 : ℚ) ^ 4) from rfl]
    norm_num

/-- C3 witness: the Ki branch applied at 9999 bytes and the Gi branch at
2 Ti of bytes. -/
theorem claim_C3_witness :
    MemoryResource.format 9999 = divToString 9999 1024 ++ "Ki" ∧
    MemoryResource.format (2 * 1024 ^ 4) = divToString (2 * 1024 ^ 4) (1024 ^ 3) ++ "Gi" :=
  ⟨(claim_C3 9999).2.2.1 (by norm_num) (by norm_num),
    (claim_C3 (2 * 1024 ^ 4)).1 (by norm_num)⟩

/-- C4: a factory-produced canonical value round-trips through the text of
its exact unit: for every whole `v`, parsing `"<v>m"` (CPU) or `"<v>B"`
(memory) yields canonical value `v` again, `fromMillicores v` and
`fromBytes v` succeed with canonical value `v`, and concretely
`fromMillicores 500` corresponds to the text `"500m"`, which reparses
to 500. -/
theorem claim_C4 : ∀ v : Nat,
    CPUResource.parse (natStr v ++ "m") = .ok v ∧
    CPUResource.fromMillicores (.fin (v : ℚ)) = .ok v ∧
    MemoryResource.parse (natStr v ++ "B") = .ok v ∧
    MemoryResource.fromBytes (.fin (v : ℚ)) = .ok v ∧
    natStr 500 ++ "m" = "500m" ∧
    CPUResource.parse "500m" = .ok 500 := by
  intro v
  refine ⟨parseCPU_natStr_m v, ?_, parseMem_natStr_B v, ?_, by decide, ?_⟩
  · show (match CPUResource.validateMillicores (.fin (v : ℚ)) with
      | .error e => .error e
      | .ok n => CPUResource.parse (natStr n ++ "m")) = Except.ok v
    rw [validateM_natCast v]
    exact parseCPU_natStr_m v
  · show (match MemoryResource.validateBytes (.fin (v : ℚ)) with
      | .error e => .error e
      | .ok n => MemoryResource.parse (natStr n ++ "B")) = Except.ok v
    rw [validateB_natCast v]
    exact parseMem_natStr_B v
  · rw [show ("500m" : String) = natStr 500 ++ "m" by decide]
    exact parseCPU_natStr_m 500

/-- C5: `times` rejects a non-finite factor with `InvalidFactor` before any
computation; otherwise the canonical result is `⌊value * factor⌋`
(truncation of the non-negative product, not rounding), and a negative
factor applied to a positive value yields a negative floor that the
validator rejects as `Negative` — there is no dedicated negative-factor
check. -/
theorem claim_C5 : ∀ (a : Nat) (f : ℚ),
    (0 ≤ ⌊(a : ℚ) * f⌋ →
      CPUResource.times a (.fin f) = .ok (⌊(a : ℚ) * f⌋.toNat) ∧
      MemoryResource.times a (.fin f) = .ok (⌊(a : ℚ) * f⌋.toNat)) ∧
    (0 < a → f < 0 →
      CPUResource.times a (.fin f) = .error .Negative ∧
      MemoryResource.times a (.fin f) = .error .Negative) ∧
    CPUResource.times a .nan = .error .InvalidFactor ∧
    CPUResource.times a .posInf = .error .InvalidFactor ∧
    CPUResource.times a .negInf = .error .InvalidFactor ∧
    MemoryResource.times a .nan = .error .InvalidFactor ∧
    MemoryResource.times a .posInf = .error .InvalidFactor ∧
    MemoryResource.times a .negInf = .error .InvalidFactor :=
  fun a f =>
    ⟨fun h => ⟨timesCPU_nonneg a f h, timesMem_nonneg a f h⟩,
      fun ha hf => ⟨timesCPU_negFactor a f ha hf, timesMem_negFactor a f ha hf⟩,
      rfl, rfl, rfl, rfl, rfl, rfl⟩

/-- C5 witness: scaling 2 millicores by 3/2 truncates to 3, and scaling a
positive value by a negative factor fails with `Negative`. -/
theorem claim_C5_witness :
    CPUResource.times 2 (.fin (3 / 2)) = .ok 3 ∧
    CPUResource.times 1 (.fin (-1)) = .error .Negative := by
  constructor
  · have h3 : ((2 : ℕ) : ℚ) * (3 / 2) = 3 := by norm_num
    have hc := ((claim_C5 2 (3 / 2)).1 (by rw [h3]; norm_num)).1
    rw [h3, show ⌊(3 : ℚ)⌋ = 3 by norm_num [Int.floor_eq_iff]] at hc
    exact hc
  · exact ((claim_C5 1 (-1)).2.1 (by norm_num) (by norm_num)).1

/-- C6: subtraction fails with `Negative` exactly when the left canonical
value is smaller than the right one, and otherwise returns the difference;
the rejection happens in the standard validator, with no separate underflow
check. -/
theorem claim_C6 : ∀ a b : Nat,
    (a < b → CPUResource.minus a b = .error .Negative ∧
      MemoryResource.minus a b = .error .Negative) ∧
    (b ≤ a → CPUResource.minus a b = .ok (a - b) ∧
      MemoryResource.minus a b = .ok (a - b)) :=
  fun a b =>
    ⟨fun h => ⟨minusCPU_lt a b h, minusMem_lt a b h⟩,
      fun h => ⟨minusCPU_le a b h, minusMem_le a b h⟩⟩

/-- C6 witness: 1 − 2 fails with `Negative`; 5 − 3 succeeds with 2. -/
theorem claim_C6_witness :
    CPUResource.minus 1 2 = .error .Negative ∧
    MemoryResource.minus 5 3 = .ok 2 :=
  ⟨((claim_C6 1 2).1 (by norm_num)).1, ((claim_C6 5 3).2 (by norm_num)).2⟩

/-- C7: the CPU text accessor renders canonical millicores of at least 1000
as cores (the exact quotient by 1000, no unit suffix) and smaller values as
`<millicores>m`; `"100m"` plus `"1"` has canonical value 1100 and formats
as `"1.1"`. -/
theorem claim_C7 : ∀ v : Nat,
    (1000 ≤ v → CPUResource.format v = divToString v 1000) ∧
    (v < 1000 → CPUResource.format v = natStr v ++ "m") ∧
    CPUResource.parse "100m" = .ok 100 ∧
    CPUResource.parse "1" = .ok 1000 ∧
    CPUResource.plus 100 1000 = .ok 1100 ∧
    CPUResource.format 1100 = "1.1" := by
  intro v
  refine ⟨formatCPU_ge v, formatCPU_lt v, ?_, ?_, plusCPU_eq 100 1000, by decide⟩
  · rw [show ("100m" : String) = natStr 100 ++ "m" by decide]
    exact parseCPU_natStr_m 100
  · rw [show ("1" : String) = String.mk (numToChars 1 ++ []) by decide]
    have := parseCPU_digits_unit 1 [] 1000 (by decide) (by
      rw [show CPUResource.UNITS [] = some ((1000 : ℚ)) from rfl]
      norm_num)
    simpa using this

/-- C7 witness: the cores branch at 1100 millicores evaluates to `"1.1"` and
the millicores branch at 500 evaluates to `"500m"`. -/
theorem claim_C7_witness :
    CPUResource.format 1100 = "1.1" ∧ CPUResource.format 500 = "500m" := by
  have h1 := (claim_C7 1100).1 (by norm_num)
  have h2 := (claim_C7 500).2.1 (by norm_num)
  exact ⟨h1.trans (by decide), h2.trans (by decide)⟩

/-- C8: addition is commutative; the zero quantity is an identity for
addition and subtraction; scaling by 1 is the identity and scaling by 0
yields zero. -/
theorem claim_C8 : ∀ a b : Nat,
    CPUResource.plus a b = CPUResource.plus b a ∧
    MemoryResource.plus a b = MemoryResource.plus b a ∧
    CPUResource.zero = .ok 0 ∧
    MemoryResource.zero = .ok 0 ∧
    CPUResource.plus a 0 = .ok a ∧
    MemoryResource.plus a 0 = .ok a ∧
    CPUResource.minus a 0 = .ok a ∧
    MemoryResource.minus a 0 = .ok a ∧
    CPUResource.times a (.fin 1) = .ok a ∧
    MemoryResource.times a (.fin 1) = .ok a ∧
    CPUResource.times a (.fin 0) = .ok 0 ∧
    MemoryResource.times a (.fin 0) = .ok 0 := by
  intro a b
  have hc : CPUResource.plus a b = CPUResource.plus b a := by
    rw [plusCPU_eq, plusCPU_eq, Nat.add_comm]
  have hm : MemoryResource.plus a b = MemoryResource.plus b a := by
    rw [plusMem_eq, plusMem_eq, Nat.add_comm]
  have hz : CPUResource.zero = .ok 0 := by
    show CPUResource.parse "0m" = .ok 0
    rw [show ("0m" : String) = natStr 0 ++ "m" by decide]
    exact parseCPU_natStr_m 0
  have hzB : MemoryResource.zero = .ok 0 := by
    show MemoryResource.parse "0B" = .ok 0
    rw [show ("0B" : String) = natStr 0 ++ "B" by decide]
    exact parseMem_natStr_B 0
  have ht1 : CPUResource.times a (.fin 1) = .ok a := by
    have := timesCPU_nonneg a 1 (by rw [mul_one, Int.floor_natCast]; positivity)
    rw [mul_one, Int.floor_natCast] at this
    simpa using this
  have ht1B : MemoryResource.times a (.fin 1) = .ok a := by
    have := timesMem_nonneg a 1 (by rw [mul_one, Int.floor_natCast]; positivity)
    rw [mul_one, Int.floor_natCast] at this
    simpa using this
  have ht0 : CPUResource.times a (.fin 0) = .ok 0 := by
    have := timesCPU_nonneg a 0 (by rw [mul_zero]; norm_num)
    rw [mul_zero] at this
    simpa using this
  have ht0B : MemoryResource.times a (.fin 0) = .ok 0 := by
    have := timesMem_nonneg a 0 (by rw [mul_zero]; norm_num)
    rw [mul_zero] at this
    simpa using this
  refine ⟨hc, hm, hz, hzB, ?_, ?_, ?_, ?_, ht1, ht1B, ht0, ht0B⟩
  · simpa using plusCPU_eq a 0
  · simpa using plusMem_eq a 0
  · simpa using minusCPU_le a 0 (Nat.zero_le a)
  · simpa using minusMem_le a 0 (Nat.zero_le a)

/-- C9: every canonical value released by a successful constructor, factory,
or arithmetic operation itself passes the validator (it is a finite,
non-negative whole number), because each of these operations validates the
computed value before releasing it. -/
theorem claim_C9 : ∀ (s : String) (a b n : Nat) (m f : JsNum),
    (CPUResource.parse s = .ok n → CPUResource.validateMillicores (.fin (n : ℚ)) = .ok n) ∧
    (ResourcesCPU.parse s = .ok n → CPUResource.validateMillicores (.fin (n : ℚ)) = .ok n) ∧
    (CPUResource.plus a b = .ok n → CPUResource.validateMillicores (.fin (n : ℚ)) = .ok n) ∧
    (CPUResource.minus a b = .ok n → CPUResource.validateMillicores (.fin (n : ℚ)) = .ok n) ∧
    (CPUResource.times a f = .ok n → CPUResource.validateMillicores (.fin (n : ℚ)) = .ok n) ∧
    (CPUResource.fromMillicores m = .ok n → CPUResource.validateMillicores (.fin (n : ℚ)) = .ok n) ∧
    (MemoryResource.parse s = .ok n → MemoryResource.validateBytes (.fin (n : ℚ)) = .ok n) ∧
    (ResourcesMem.parse s = .ok n → MemoryResource.validateBytes (.fin (n : ℚ)) = .ok n) ∧
    (MemoryResource.plus a b = .ok n → MemoryResource.validateBytes (.fin (n : ℚ)) = .ok n) ∧
    (MemoryResource.minus a b = .ok n → MemoryResource.validateBytes (.fin (n : ℚ)) = .ok n) ∧
    (MemoryResource.times a f = .ok n → MemoryResource.validateBytes (.fin (n : ℚ)) = .ok n) ∧
    (MemoryResource.fromBytes m = .ok n → MemoryResource.validateBytes (.fin (n : ℚ)) = .ok n) :=
  fun _ _ _ n _ _ =>
    ⟨fun _ => validateM_natCast n, fun _ => validateM_natCast n, fun _ => validateM_natCast n,
      fun _ => validateM_natCast n, fun _ => validateM_natCast n, fun _ => validateM_natCast n,
      fun _ => validateB_natCast n, fun _ => validateB_natCast n, fun _ => validateB_natCast n,
      fun _ => validateB_natCast n, fun _ => validateB_natCast n, fun _ => validateB_natCast n⟩

/-- C9 witness: the value 100 released by parsing `"100m"` passes the CPU
validator. -/
theorem claim_C9_witness :
    CPUResource.validateMillicores (.fin ((100 : ℕ) : ℚ)) = .ok 100 :=
  (claim_C9 "100m" 0 0 100 .nan .nan).1
    (by rw [show ("100m" : String) = natStr 100 ++ "m" by decide]; exact parseCPU_natStr_m 100)

/-- C10: the constructors' regex accepts exactly one or more digits,
optionally followed by a decimal point and at least one further digit,
followed by a letters-only suffix; consequently `".5"`, `"1."`, the empty
string, strings with whitespace, and exponent notation are all rejected
with `InvalidFormat` by the `src/index.ts` constructors. -/
theorem claim_C10 : ∀ (cs num u : List Char),
    (matchQuantity cs = some (num, u) →
      cs = num ++ u ∧ u.all jsIsAlpha = true ∧
      ((num ≠ [] ∧ num.all jsIsDigit = true) ∨
        ∃ ip fp : List Char, num = ip ++ '.' :: fp ∧ ip ≠ [] ∧ fp ≠ [] ∧
          ip.all jsIsDigit = true ∧ fp.all jsIsDigit = true)) ∧
    CPUResource.parse "" = .error .InvalidFormat ∧
    CPUResource.parse ".5" = .error .InvalidFormat ∧
    CPUResource.parse "1." = .error .InvalidFormat ∧
    CPUResource.parse " 100m" = .error .InvalidFormat ∧
    CPUResource.parse "100 m" = .error .InvalidFormat ∧
    CPUResource.parse "100m " = .error .InvalidFormat ∧
    CPUResource.parse "1e3" = .error .InvalidFormat ∧
    CPUResource.parse "1.0e3" = .error .InvalidFormat ∧
    MemoryResource.parse "" = .error .InvalidFormat ∧
    MemoryResource.parse ".5" = .error .InvalidFormat ∧
    MemoryResource.parse "1." = .error .InvalidFormat ∧
    MemoryResource.parse " 128Mi" = .error .InvalidFormat ∧
    MemoryResource.parse "1e3" = .error .InvalidFormat := by
  intro cs num u
  refine ⟨?_, parseCPU_invalid _ (by decide), parseCPU_invalid _ (by decide),
    parseCPU_invalid _ (by decide), parseCPU_invalid _ (by decide),
    parseCPU_invalid _ (by decide), parseCPU_invalid _ (by decide),
    parseCPU_invalid _ (by decide), parseCPU_invalid _ (by decide),
    parseMem_invalid _ (by decide), parseMem_invalid _ (by decide),
    parseMem_invalid _ (by decide), parseMem_invalid _ (by decide),
    parseMem_invalid _ (by decide)⟩
  intro h
  have hspec := takeDigits_spec cs
  simp only [matchQuantity] at h
  by_cases h1 : (takeDigits cs).1 = []
  · rw [if_pos h1] at h
    exact absurd h (by simp)
  · rw [if_neg h1] at h
    by_cases h2 : (takeDigits cs).2.head? = some '.'
    · rw [if_pos h2] at h
      by_cases h3 : (takeDigits (takeDigits cs).2.tail).1 = []
      · rw [if_pos h3] at h
        exact absurd h (by simp)
      · rw [if_neg h3] at h
        by_cases h4 : (takeDigits (takeDigits cs).2.tail).2.all jsIsAlpha = true
        · rw [if_pos h4] at h
          simp only [Option.some.injEq, Prod.mk.injEq] at h
          obtain ⟨hnum, hu⟩ := h
          subst hnum
          subst hu
          have hr1 : (takeDigits cs).2 = '.' :: (takeDigits cs).2.tail := by
            cases hr : (takeDigits cs).2 with
            | nil => rw [hr] at h2; simp at h2
            | cons c t =>
              rw [hr] at h2
              simp only [List.head?_cons, Option.some.injEq] at h2
              rw [h2]
              simp
          have hr2 := (takeDigits_spec (takeDigits cs).2.tail).1
          refine ⟨?_, h4,
            Or.inr ⟨(takeDigits cs).1, (takeDigits (takeDigits cs).2.tail).1, rfl, h1, h3,
              hspec.2, (takeDigits_spec _).2⟩⟩
          conv_lhs => rw [← hspec.1, hr1, ← hr2]
          simp
        · rw [if_neg h4] at h
          exact absurd h (by simp)
    · rw [if_neg h2] at h
      by_cases h4 : (takeDigits cs).2.all jsIsAlpha = true
      · rw [if_pos h4] at h
        simp only [Option.some.injEq, Prod.mk.injEq] at h
        obtain ⟨hnum, hu⟩ := h
        subst hnum
        subst hu
        exact ⟨hspec.1.symm, h4, Or.inl ⟨h1, hspec.2⟩⟩
      · rw [if_neg h4] at h
        exact absurd h (by simp)

/-- C10 witness: the regex decomposition of the accepted input `"100m"`. -/
theorem claim_C10_witness : "100m".data = ['1', '0', '0'] ++ ['m'] :=
  ((claim_C10 "100m".data ['1', '0', '0'] ['m']).1 (by decide)).1
